import Mathlib

/-!
# A verification development for `pointers.c`

`pointers.c` keeps an address book in a heap array that `add` is meant to grow
by doubling.  The development below embeds the C code over an explicit heap:

* a pointer is `Option Nat` (`none` is `NULL`, `some a` is the address of the
  block that the `a`-th call of `malloc` returned);
* a heap block is a list of slots, each either uninitialised (`none`) or holding a
  `struct Contact`;
* every access the C standard leaves undefined (a write past the end of a block,
  a dereference of `NULL` or of a released block, a release of something that is
  not a live block, signed overflow, `strcpy` past the destination array) is a
  `Fault`, returned through `Except`.

Integer model: `int` is 32 bits wide, `size_t` is 64 bits wide.  The fields
`size` and `capacity` are `int`s that the program only ever sets to `0` and
increments, so they are embedded as natural numbers together with explicit
checks against `INT_MAX`.  `malloc` is assumed to succeed.
-/

namespace Pointers

/-! ## Data model -/

/-- Largest value of the C type `int`. -/
def INT_MAX : Nat := 2147483647

/-- Number of values of the C type `size_t`. -/
def SIZE_MOD : Nat := 2 ^ 64

/-- Size in bytes of each of the arrays `name` and `address` of `struct Contact`. -/
def FIELD_SIZE : Nat := 20

/-- The value of `sizeof(struct Contact)`: two arrays of 20 `char`s. -/
def sizeofContact : Nat := FIELD_SIZE + FIELD_SIZE

/-- The C `struct Contact`; each field is the text held in the array, without its
terminator. -/
structure Contact where
  name : String
  address : String
deriving DecidableEq

/-- The C `struct AddressBook`; `contacts` is a pointer (`none` is `NULL`). -/
structure AddressBook where
  size : Nat
  capacity : Nat
  contacts : Option Nat
deriving DecidableEq

/-- The ways in which an execution leaves defined behaviour. -/
inductive Fault where
  | signedOverflow
  | nullDereference
  | danglingPointer
  | outOfBounds
  | invalidFree
  | uninitialisedRead
  | bufferOverflow
deriving DecidableEq

/-- Calls made to the allocator, in the order in which they happen. -/
inductive Event where
  | malloc (addr : Nat) (slots : Nat)
  | free (p : Option Nat)
deriving DecidableEq

/-- A heap block: its slots, each uninitialised or holding a record. -/
abbrev Block := List (Option Contact)

/-- The heap.  The cell at address `a` is `some blk` while the block is live and
`none` once it has been released; `log` records the allocator calls. -/
structure Heap where
  cells : List (Option Block)
  log : List Event
deriving DecidableEq

/-- The live block a pointer refers to, if there is one. -/
def Heap.block (h : Heap) (p : Option Nat) : Option Block :=
  match p with
  | none => none
  | some a =>
    match h.cells[a]? with
    | some (some blk) => some blk
    | _ => none

/-- The slots of the block currently held in a pointer (none for `NULL`). -/
def Heap.slots (h : Heap) (p : Option Nat) : Block :=
  (h.block p).getD []

/-- A pointer that is `NULL` or refers to a live block. -/
def Heap.valid (h : Heap) (p : Option Nat) : Bool :=
  match p with
  | none => true
  | some _ => (h.block p).isSome

/-! ## Library calls and primitive steps -/

/-- Multiplication of two `int`s; signed overflow is undefined. -/
def mulInt (a b : Nat) : Except Fault Nat :=
  if a * b ≤ INT_MAX then .ok (a * b) else .error .signedOverflow

/-- The statement `n++` on an `int`; signed overflow is undefined. -/
def incInt (n : Nat) : Except Fault Nat :=
  if n + 1 ≤ INT_MAX then .ok (n + 1) else .error .signedOverflow

/-- The product `n * sizeof(struct Contact)` in `size_t` arithmetic. -/
def sizeMul (n : Nat) : Nat := (n * sizeofContact) % SIZE_MOD

/-- The call `malloc(bytes)`: a fresh block of `bytes / sizeof(struct Contact)`
uninitialised slots, at the next unused address. -/
def malloc (h : Heap) (bytes : Nat) : Heap × Nat :=
  ({ cells := h.cells ++ [some (List.replicate (bytes / sizeofContact) none)],
     log := h.log ++ [Event.malloc h.cells.length (bytes / sizeofContact)] },
   h.cells.length)

/-- The call `memcpy(dst, src, bytes)`, in whole records.  Copying nothing leaves
the heap as it is, whatever the pointers. -/
def memcpy (h : Heap) (dst src : Option Nat) (bytes : Nat) : Except Fault Heap :=
  if bytes / sizeofContact = 0 then .ok h
  else
    match dst, h.block dst, h.block src with
    | some d, some db, some sb =>
      if bytes / sizeofContact ≤ db.length ∧ bytes / sizeofContact ≤ sb.length then
        let blk := sb.take (bytes / sizeofContact) ++ db.drop (bytes / sizeofContact)
        .ok { h with cells := h.cells.set d (some blk) }
      else .error .outOfBounds
    | _, _, _ => .error .danglingPointer

/-- The call `free(p)`: a no-op on `NULL`, the release of a live block, and
undefined on anything else. -/
def free (h : Heap) (p : Option Nat) : Except Fault Heap :=
  match p with
  | none => .ok { h with log := h.log ++ [Event.free none] }
  | some a =>
    match h.block (some a) with
    | some _ => .ok { cells := h.cells.set a none, log := h.log ++ [Event.free (some a)] }
    | none => .error .invalidFree

/-- The assignment `p[i] = c`. -/
def writeSlot (h : Heap) (p : Option Nat) (i : Nat) (c : Contact) : Except Fault Heap :=
  match p with
  | none => .error .nullDereference
  | some a =>
    match h.block (some a) with
    | none => .error .danglingPointer
    | some blk =>
      if i < blk.length then .ok { h with cells := h.cells.set a (some (blk.set i (some c))) }
      else .error .outOfBounds

/-- The read `p[i]`. -/
def readSlot (h : Heap) (p : Option Nat) (i : Nat) : Except Fault Contact :=
  match p with
  | none => .error .nullDereference
  | some a =>
    match h.block (some a) with
    | none => .error .danglingPointer
    | some blk =>
      match blk[i]? with
      | none => .error .outOfBounds
      | some none => .error .uninitialisedRead
      | some (some c) => .ok c

/-- The call `strcpy(dst, s)` into a field of `struct Contact`: the text and its
terminator must fit the array. -/
def strcpy (s : String) : Except Fault String :=
  if s.length + 1 ≤ FIELD_SIZE then .ok s else .error .bufferOverflow

/-! ## The functions of `pointers.c` -/

/-- The body of the `if` in `add`: allocate a block of twice the size (two slots
when the size is zero), copy the records over, release the old block and store
the new pointer in `contacts`.  No other field of the book is assigned. -/
def grow (h : Heap) (book : AddressBook) : Except Fault (Heap × AddressBook) :=
  match mulInt book.size 2 with
  | .error e => .error e
  | .ok doubled =>
    let new_size := if doubled = 0 then 2 else doubled
    let (h1, new_array) := malloc h (sizeMul new_size)
    match memcpy h1 (some new_array) book.contacts (sizeMul book.size) with
    | .error e => .error e
    | .ok h2 =>
      match free h2 book.contacts with
      | .error e => .error e
      | .ok h3 => .ok (h3, { book with contacts := some new_array })

/-- The function `add`. -/
def add (h : Heap) (book : AddressBook) (contact : Contact) :
    Except Fault (Heap × AddressBook) :=
  match (if book.size = book.capacity then grow h book else .ok (h, book)) with
  | .error e => .error e
  | .ok (h1, book1) =>
    match writeSlot h1 book1.contacts book1.size contact with
    | .error e => .error e
    | .ok h2 =>
      match incInt book1.size with
      | .error e => .error e
      | .ok n => .ok (h2, { book1 with size := n })

/-- The heap before the first call of `malloc`. -/
def emptyHeap : Heap := { cells := [], log := [] }

/-- The book as `create_book` initialises it: no records, no capacity, `NULL`. -/
def emptyBook : AddressBook := { size := 0, capacity := 0, contacts := none }

/-- Calls of `add` on each record of a list in turn. -/
def addAll (h : Heap) (book : AddressBook) : List Contact → Except Fault (Heap × AddressBook)
  | [] => .ok (h, book)
  | c :: cs =>
    match add h book c with
    | .error e => .error e
    | .ok (h1, book1) => addAll h1 book1 cs

/-- A local `struct Contact` filled by the two `strcpy` calls of `create_book`. -/
def mkContact (name address : String) : Except Fault Contact :=
  match strcpy name with
  | .error e => .error e
  | .ok n =>
    match strcpy address with
    | .error e => .error e
    | .ok a => .ok { name := n, address := a }

/-- The function `create_book`, up to and including its first call of `add`. -/
def create_book_alice (h : Heap) : Except Fault (Heap × AddressBook) :=
  match mkContact "Alice" "123 Apple Ave" with
  | .error e => .error e
  | .ok alice => add h emptyBook alice

/-- The function `create_book`, up to and including its second call of `add`. -/
def create_book_bob (h : Heap) : Except Fault (Heap × AddressBook) :=
  match create_book_alice h with
  | .error e => .error e
  | .ok (h1, book) =>
    match mkContact "Bob" "123 Berry Boardwalk" with
    | .error e => .error e
    | .ok bob => add h1 book bob

/-- The function `create_book`. -/
def create_book (h : Heap) : Except Fault (Heap × AddressBook) :=
  match create_book_bob h with
  | .error e => .error e
  | .ok (h2, book) =>
    match mkContact "Carol" "123 Cherry Crossing" with
    | .error e => .error e
    | .ok carol => add h2 book carol

/-- The loop of `main`: the rows it prints for the indices `i, i+1, …` below
`size`, as (index, name, address). -/
def printRows (h : Heap) (book : AddressBook) : Nat → Nat → Except Fault (List (Nat × String × String))
  | 0, _ => .ok []
  | fuel + 1, i =>
    if i < book.size then
      match readSlot h book.contacts i with
      | .error e => .error e
      | .ok c =>
        match printRows h book fuel (i + 1) with
        | .error e => .error e
        | .ok rows => .ok ((i, c.name, c.address) :: rows)
    else .ok []

/-- The function `main`: build the book, print its rows, release `contacts`.
The result is the printed rows and the final heap. -/
def main : Except Fault (List (Nat × String × String) × Heap) :=
  match create_book emptyHeap with
  | .error e => .error e
  | .ok (h, book) =>
    match printRows h book book.size 0 with
    | .error e => .error e
    | .ok rows =>
      match free h book.contacts with
      | .error e => .error e
      | .ok h1 => .ok (rows, h1)

/-- A run that calls `add` on each record in turn, from the empty store, and then
releases `contacts` once. -/
def addAllThenFree (cs : List Contact) : Except Fault Heap :=
  match addAll emptyHeap emptyBook cs with
  | .error e => .error e
  | .ok (h, book) => free h book.contacts

/-! ## Well-formed stores -/

/-- A well-formed store: `size ≤ capacity`, the fields are values of `int`, and
`contacts` is `NULL` or a live block, with exactly `capacity` slots. -/
def WellFormed (h : Heap) (book : AddressBook) : Prop :=
  book.size ≤ book.capacity ∧ book.capacity ≤ INT_MAX ∧
    h.valid book.contacts = true ∧ (h.slots book.contacts).length = book.capacity

instance (h : Heap) (book : AddressBook) : Decidable (WellFormed h book) := by
  unfold WellFormed; infer_instance

/-- The new size that the grow branch of `add` computes from the old size. -/
def newSize (size : Nat) : Nat := if size * 2 = 0 then 2 else size * 2

/-- The record `alice` of `create_book`. -/
def alice : Contact := { name := "Alice", address := "123 Apple Ave" }

/-- The record `bob` of `create_book`. -/
def bob : Contact := { name := "Bob", address := "123 Berry Boardwalk" }

/-- The record `carol` of `create_book`. -/
def carol : Contact := { name := "Carol", address := "123 Cherry Crossing" }

/-- A heap holding one two-slot block with one record in it. -/
def spareHeap : Heap :=
  { cells := [some [some alice, none]], log := [Event.malloc 0 2, Event.free none] }

/-- A well-formed store with spare capacity over `spareHeap`. -/
def spareBook : AddressBook := { size := 1, capacity := 2, contacts := some 0 }

/-- A heap holding one two-slot block with two records in it. -/
def fullHeap : Heap :=
  { cells := [some [some alice, some bob]], log := [Event.malloc 0 2, Event.free none] }

/-- A well-formed full store over `fullHeap`. -/
def fullBook : AddressBook := { size := 2, capacity := 2, contacts := some 0 }

/-- A heap holding one block of 2^30 records. -/
def hugeHeap : Heap :=
  { cells := [some (List.replicate 1073741824 (some alice))],
    log := [Event.malloc 0 1073741824] }

/-- A well-formed full store of 2^30 records over `hugeHeap`. -/
def hugeBook : AddressBook :=
  { size := 1073741824, capacity := 1073741824, contacts := some 0 }

/-- A record whose name fills all 20 bytes of its array: 20 visible characters and
no terminator. -/
def longNameRecord : Contact :=
  { name := "Bartholomew Fitzroy!", address := "123 Apple Ave" }

/-! ## Heap lemmas -/

theorem block_some_iff (h : Heap) (a : Nat) (blk : Block) :
    h.block (some a) = some blk ↔ h.cells[a]? = some (some blk) := by
  simp only [Heap.block]
  cases h.cells[a]? with
  | none => simp
  | some o => cases o <;> simp

theorem block_lt (h : Heap) (a : Nat) (blk : Block) (hb : h.block (some a) = some blk) :
    a < h.cells.length := by
  rw [block_some_iff] at hb
  exact (List.getElem?_eq_some_iff.mp hb).1

theorem sizeMul_div (n : Nat) (hn : n ≤ INT_MAX) : sizeMul n / sizeofContact = n := by
  unfold sizeMul sizeofContact FIELD_SIZE SIZE_MOD
  unfold INT_MAX at hn
  rw [Nat.mod_eq_of_lt (by omega)]
  omega

theorem add_spare (h : Heap) (book : AddressBook) (c : Contact) (a : Nat) (blk : Block)
    (hc : book.contacts = some a) (hb : h.block (some a) = some blk)
    (hne : book.size ≠ book.capacity) (hlt : book.size < blk.length)
    (hmax : book.size + 1 ≤ INT_MAX) :
    add h book c =
      .ok ({ h with cells := h.cells.set a (some (blk.set book.size (some c))) },
           { book with size := book.size + 1 }) := by
  simp [add, hne, writeSlot, hc, hb, hlt, incInt, hmax]

theorem newSize_bounds (size : Nat) (hdbl : size * 2 ≤ INT_MAX) :
    size < newSize size ∧ newSize size ≤ INT_MAX := by
  unfold newSize
  unfold INT_MAX at *
  split <;> omega

theorem add_grow_null (h : Heap) (book : AddressBook) (c : Contact)
    (hc : book.contacts = none) (hsize : book.size = 0) (hcap : book.capacity = 0) :
    add h book c =
      .ok ({ cells := h.cells ++ [some [some c, none]],
             log := h.log ++ [Event.malloc h.cells.length 2, Event.free none] },
           { book with contacts := some h.cells.length, size := 1 }) := by
  simp [add, grow, hc, hsize, hcap, mulInt, malloc, memcpy, free, writeSlot, incInt, sizeMul,
    sizeofContact, FIELD_SIZE, SIZE_MOD, INT_MAX, Heap.block, List.replicate]

theorem block_append_left (cells : List (Option Block)) (x : Option Block) (log : List Event)
    (a : Nat) (ha : a < cells.length) :
    Heap.block { cells := cells ++ [x], log := log } (some a)
      = Heap.block { cells := cells, log := log } (some a) := by
  simp [Heap.block, List.getElem?_append_left ha]

theorem block_append_last (cells : List (Option Block)) (x : Block) (log : List Event) :
    Heap.block { cells := cells ++ [some x], log := log } (some cells.length) = some x := by
  simp [Heap.block]

theorem memcpy_grow (cells : List (Option Block)) (log : List Event) (a n size bytes : Nat)
    (blk : Block) (hb : cells[a]? = some (some blk)) (hlen : blk.length = size)
    (hle : size ≤ n) (hbytes : bytes / sizeofContact = size) :
    memcpy { cells := cells ++ [some (List.replicate n none)], log := log }
        (some cells.length) (some a) bytes
      = .ok { cells := cells ++ [some (blk ++ List.replicate (n - size) none)], log := log } := by
  have ha : a < cells.length := (List.getElem?_eq_some_iff.mp hb).1
  have hblk : Heap.block { cells := cells, log := log } (some a) = some blk :=
    (block_some_iff _ _ _).mpr hb
  unfold memcpy
  rw [hbytes]
  subst hlen
  by_cases h0 : blk.length = 0
  · have : blk = [] := List.length_eq_zero.mp h0
    simp [this]
  · rw [if_neg h0, block_append_last, block_append_left _ _ _ _ ha, hblk]
    simp [hle]

theorem grow_block (h : Heap) (book : AddressBook) (a : Nat) (blk : Block)
    (hc : book.contacts = some a) (hb : h.block (some a) = some blk)
    (hlen : blk.length = book.size) (hdbl : book.size * 2 ≤ INT_MAX) :
    grow h book =
      .ok (Heap.mk
            (h.cells.set a none ++
              [some (blk ++ List.replicate (newSize book.size - book.size) none)])
            (h.log ++ [Event.malloc h.cells.length (newSize book.size), Event.free (some a)]),
           { book with contacts := some h.cells.length }) := by
  have ha := block_lt h a blk hb
  have hns := newSize_bounds book.size hdbl
  have hd1 : sizeMul (newSize book.size) / sizeofContact = newSize book.size :=
    sizeMul_div _ hns.2
  have hd2 : sizeMul book.size / sizeofContact = book.size :=
    sizeMul_div _ (by omega)
  have hb1 := (block_some_iff _ _ _).mp hb
  have hm := memcpy_grow h.cells
    (h.log ++ [Event.malloc h.cells.length (newSize book.size)]) a (newSize book.size)
    book.size (sizeMul book.size) blk hb1 hlen (by omega) hd2
  have hfree : free (Heap.mk
        (h.cells ++ [some (blk ++ List.replicate (newSize book.size - book.size) none)])
        (h.log ++ [Event.malloc h.cells.length (newSize book.size)])) (some a)
      = .ok (Heap.mk
          (h.cells.set a none ++
            [some (blk ++ List.replicate (newSize book.size - book.size) none)])
          (h.log ++
            [Event.malloc h.cells.length (newSize book.size), Event.free (some a)])) := by
    have hblk : Heap.block (Heap.mk
        (h.cells ++ [some (blk ++ List.replicate (newSize book.size - book.size) none)])
        (h.log ++ [Event.malloc h.cells.length (newSize book.size)])) (some a) = some blk := by
      rw [block_append_left _ _ _ _ ha]
      exact (block_some_iff _ _ _).mpr hb1
    simp only [free, hblk]
    simp [List.set_append_left _ _ ha]
  unfold grow
  simp only [mulInt, if_pos hdbl, malloc]
  rw [show (if book.size * 2 = 0 then 2 else book.size * 2) = newSize book.size from rfl,
    hd1, hc, hm]
  simp only [hfree]

theorem writeSlot_last (cells : List (Option Block)) (log : List Event) (x : Block)
    (i : Nat) (c : Contact) (hi : i < x.length) :
    writeSlot { cells := cells ++ [some x], log := log } (some cells.length) i c
      = .ok { cells := cells ++ [some (x.set i (some c))], log := log } := by
  simp only [writeSlot, block_append_last, if_pos hi]
  simp

theorem add_grow_block (h : Heap) (book : AddressBook) (c : Contact) (a : Nat) (blk : Block)
    (hc : book.contacts = some a) (hb : h.block (some a) = some blk)
    (hlen : blk.length = book.size) (hfull : book.size = book.capacity)
    (hdbl : book.size * 2 ≤ INT_MAX) :
    add h book c =
      .ok (Heap.mk
            (h.cells.set a none ++
              [some ((blk ++ List.replicate (newSize book.size - book.size) none).set
                book.size (some c))])
            (h.log ++ [Event.malloc h.cells.length (newSize book.size), Event.free (some a)]),
           { book with contacts := some h.cells.length, size := book.size + 1 }) := by
  have hns := newSize_bounds book.size hdbl
  have hw := writeSlot_last (h.cells.set a none)
    (h.log ++ [Event.malloc h.cells.length (newSize book.size), Event.free (some a)])
    (blk ++ List.replicate (newSize book.size - book.size) none) book.size c
    (by simp; omega)
  rw [List.length_set] at hw
  have hinc : book.size + 1 ≤ INT_MAX := by omega
  simp only [add, if_pos hfull, grow_block h book a blk hc hb hlen hdbl, hw, incInt,
    if_pos hinc]

theorem add_overflow (h : Heap) (book : AddressBook) (c : Contact)
    (hfull : book.size = book.capacity) (hdbl : INT_MAX < book.size * 2) :
    add h book c = .error .signedOverflow := by
  have : ¬ book.size * 2 ≤ INT_MAX := by omega
  unfold add
  rw [if_pos hfull]
  simp [grow, mulInt, this]

theorem block_set_self (cells : List (Option Block)) (log : List Event) (a : Nat)
    (x : Block) (ha : a < cells.length) :
    Heap.block { cells := cells.set a (some x), log := log } (some a) = some x := by
  simp [Heap.block, List.getElem?_set, ha]

theorem wf_cases (h : Heap) (book : AddressBook) (hwf : WellFormed h book) :
    (book.contacts = none ∧ book.capacity = 0 ∧ book.size = 0) ∨
    (∃ a blk, book.contacts = some a ∧ h.block (some a) = some blk ∧
      blk.length = book.capacity ∧ h.slots book.contacts = blk) := by
  obtain ⟨hle, _, hv, hl⟩ := hwf
  cases hc : book.contacts with
  | none =>
    left
    rw [hc] at hl
    simp [Heap.slots, Heap.block] at hl
    refine ⟨rfl, ?_, ?_⟩ <;> omega
  | some a =>
    right
    rw [hc] at hl hv
    simp only [Heap.valid] at hv
    obtain ⟨blk, hblk⟩ := Option.isSome_iff_exists.mp hv
    refine ⟨a, blk, rfl, hblk, ?_, ?_⟩
    · simpa [Heap.slots, hblk] using hl
    · simp [Heap.slots, hblk]

/-- What `add` does to a well-formed store whose doubled size fits `int` (or that
has spare capacity): it succeeds, `size` goes up by one, `capacity` stays, and the
block held in `contacts` is the old one with the record written into slot `size`,
extended by fresh slots up to the new size when the store was full. -/
theorem add_spec (h : Heap) (book : AddressBook) (c : Contact) (hwf : WellFormed h book)
    (hfit : book.size < book.capacity ∨ book.size * 2 ≤ INT_MAX) :
    ∃ h1 book1, add h book c = .ok (h1, book1) ∧
      book1.size = book.size + 1 ∧ book1.capacity = book.capacity ∧
      h1.valid book1.contacts = true ∧
      (book.size < book.capacity →
        book1.contacts = book.contacts ∧ h1.log = h.log ∧
        h1.cells.length = h.cells.length ∧
        h1.slots book1.contacts = (h.slots book.contacts).set book.size (some c)) ∧
      (book.size = book.capacity →
        book1.contacts = some h.cells.length ∧
        h1.log = h.log ++
          [Event.malloc h.cells.length (newSize book.size), Event.free book.contacts] ∧
        h1.slots book1.contacts =
          (h.slots book.contacts ++
            List.replicate (newSize book.size - book.size) none).set book.size (some c)) := by
  have hcap := hwf.2.1
  have hle := hwf.1
  rcases wf_cases h book hwf with ⟨hc, hcap0, hsize0⟩ | ⟨a, blk, hc, hb, hlen, hslots⟩
  · refine ⟨_, _, add_grow_null h book c hc hsize0 hcap0, ?_⟩
    simp [hsize0, hcap0, hc, Heap.valid, Heap.slots, Heap.block, newSize]
  · by_cases hfull : book.size = book.capacity
    · have hdbl : book.size * 2 ≤ INT_MAX := by omega
      refine ⟨_, _, add_grow_block h book c a blk hc hb (by omega) hfull hdbl, ?_⟩
      have hl : (h.cells.set a none).length = h.cells.length := List.length_set ..
      have hblock := block_append_last (h.cells.set a none)
        ((blk ++ List.replicate (newSize book.size - book.size) none).set book.size (some c))
        (h.log ++ [Event.malloc h.cells.length (newSize book.size), Event.free (some a)])
      rw [hl] at hblock
      simp only [hfull] at hblock
      simp [hfull, hc, Heap.valid, Heap.slots, hblock, hb]
    · have hlt : book.size < book.capacity := by omega
      have hinc : book.size + 1 ≤ INT_MAX := by omega
      refine ⟨_, _, add_spare h book c a blk hc hb hfull (by omega) hinc, ?_⟩
      have hblock := block_set_self h.cells h.log a (blk.set book.size (some c))
        (block_lt h a blk hb)
      simp [hfull, hc, Heap.valid, Heap.slots, hblock, hb, hlt]

theorem getElem?_set_here {α : Type} (l : List α) (i : Nat) (x : α) (hi : i < l.length) :
    (l.set i x)[i]? = some x := by
  simp [List.getElem?_set, hi]

/-! ## What a returning call went through -/

theorem grow_ok_inv (h : Heap) (book : AddressBook) (h3 : Heap) (b3 : AddressBook)
    (hg : grow h book = .ok (h3, b3)) :
    book.size * 2 ≤ INT_MAX ∧ b3 = { book with contacts := some h.cells.length } ∧
      ∃ h2, memcpy (malloc h (sizeMul (newSize book.size))).1 (some h.cells.length)
          book.contacts (sizeMul book.size) = .ok h2 ∧
        free h2 book.contacts = .ok h3 := by
  unfold grow at hg
  by_cases hdbl : book.size * 2 ≤ INT_MAX
  · simp only [mulInt, if_pos hdbl] at hg
    rw [show (if book.size * 2 = 0 then 2 else book.size * 2) = newSize book.size from rfl]
      at hg
    split at hg
    · cases hg
    · next h2 hm =>
      split at hg
      · cases hg
      · next h3n hf =>
        cases hg
        exact ⟨hdbl, rfl, h2, hm, hf⟩
  · simp [mulInt, hdbl] at hg

theorem add_ok_inv (h : Heap) (book : AddressBook) (c : Contact) (h1 : Heap)
    (book1 : AddressBook) (hadd : add h book c = .ok (h1, book1)) :
    ∃ hg bg, (if book.size = book.capacity then grow h book else .ok (h, book)) = .ok (hg, bg) ∧
      writeSlot hg bg.contacts bg.size c = .ok h1 ∧
      book1 = { bg with size := bg.size + 1 } ∧ bg.size + 1 ≤ INT_MAX := by
  unfold add at hadd
  split at hadd
  · cases hadd
  · next hg bg hgrow =>
    split at hadd
    · cases hadd
    · next hw hwrite =>
      by_cases hinc : bg.size + 1 ≤ INT_MAX
      · simp only [incInt, if_pos hinc] at hadd
        cases hadd
        exact ⟨hg, bg, hgrow, hwrite, rfl, hinc⟩
      · simp [incInt, hinc] at hadd

theorem writeSlot_ok_inv (h : Heap) (p : Option Nat) (i : Nat) (c : Contact) (h1 : Heap)
    (hw : writeSlot h p i c = .ok h1) :
    ∃ a blk, p = some a ∧ h.block (some a) = some blk ∧ i < blk.length ∧
      h1 = { h with cells := h.cells.set a (some (blk.set i (some c))) } := by
  unfold writeSlot at hw
  split at hw
  · cases hw
  · next a =>
    split at hw
    · cases hw
    · next blk hb =>
      by_cases hi : i < blk.length
      · rw [if_pos hi] at hw
        cases hw
        exact ⟨a, blk, rfl, hb, hi, rfl⟩
      · rw [if_neg hi] at hw
        cases hw

theorem free_ok_inv (h : Heap) (p : Option Nat) (h1 : Heap) (hf : free h p = .ok h1) :
    h1.log = h.log ++ [Event.free p] ∧
      ((p = none ∧ h1.cells = h.cells) ∨
        ∃ a blk, p = some a ∧ h.block (some a) = some blk ∧ h1.cells = h.cells.set a none) := by
  unfold free at hf
  split at hf
  · cases hf
    exact ⟨rfl, Or.inl ⟨rfl, rfl⟩⟩
  · next a =>
    split at hf
    · next blk hb =>
      cases hf
      exact ⟨rfl, Or.inr ⟨a, blk, rfl, hb, rfl⟩⟩
    · cases hf

theorem memcpy_ok_inv (h : Heap) (d : Nat) (src : Option Nat) (bytes : Nat) (h2 : Heap)
    (hm : memcpy h (some d) src bytes = .ok h2) :
    h2.log = h.log ∧
      ((bytes / sizeofContact = 0 ∧ h2 = h) ∨
        ∃ db sb, h.block (some d) = some db ∧ h.block src = some sb ∧
          bytes / sizeofContact ≠ 0 ∧
          bytes / sizeofContact ≤ db.length ∧ bytes / sizeofContact ≤ sb.length ∧
          h2.cells = h.cells.set d
            (some (sb.take (bytes / sizeofContact) ++ db.drop (bytes / sizeofContact)))) := by
  unfold memcpy at hm
  by_cases h0 : bytes / sizeofContact = 0
  · rw [if_pos h0] at hm
    cases hm
    exact ⟨rfl, Or.inl ⟨h0, rfl⟩⟩
  · rw [if_neg h0] at hm
    split at hm
    · next d1 db sb hd hdb hsb =>
      cases hd
      split at hm
      · next hle =>
        cases hm
        exact ⟨rfl, Or.inr ⟨db, sb, hdb, hsb, h0, hle.1, hle.2, rfl⟩⟩
      · cases hm
    · cases hm

theorem block_cells (h k : Heap) (hc : h.cells = k.cells) (p : Option Nat) :
    h.block p = k.block p := by
  cases p with
  | none => rfl
  | some a => simp [Heap.block, hc]

theorem block_set_none (h k : Heap) (a : Nat) (hc : k.cells = h.cells.set a none)
    (b : Nat) (blk : Block) (hb : k.block (some b) = some blk) :
    a ≠ b ∧ h.block (some b) = some blk := by
  rw [block_some_iff, hc] at hb
  by_cases hab : a = b
  · subst hab
    rw [List.getElem?_set] at hb
    simp at hb
  · rw [List.getElem?_set_ne hab] at hb
    exact ⟨hab, (block_some_iff _ _ _).mpr hb⟩

/-- What a call of `add` that took the grow branch and returned has done: the
doubled size fitted `int`, `contacts` holds the block of the call of `malloc`, and
that block is the first `size` slots of the old one, fresh slots up to the new
size, and the record in slot `size`. -/
theorem add_grow_ok (h : Heap) (book : AddressBook) (c : Contact) (h1 : Heap)
    (book1 : AddressBook) (hfull : book.size = book.capacity)
    (hadd : add h book c = .ok (h1, book1)) :
    book.size * 2 ≤ INT_MAX ∧ book1.contacts = some h.cells.length ∧
      h1.log = h.log ++
        [Event.malloc h.cells.length (newSize book.size), Event.free book.contacts] ∧
      book.size ≤ (h.slots book.contacts).length ∧
      h1.slots book1.contacts =
        ((h.slots book.contacts).take book.size ++
          List.replicate (newSize book.size - book.size) none).set book.size (some c) := by
  obtain ⟨hg, bg, hgrow, hwrite, hb1, _⟩ := add_ok_inv h book c h1 book1 hadd
  rw [if_pos hfull] at hgrow
  obtain ⟨hdbl, hbg, h2, hm, hf⟩ := grow_ok_inv h book hg bg hgrow
  subst hbg
  subst hb1
  have hns := newSize_bounds book.size hdbl
  have hd1 : sizeMul (newSize book.size) / sizeofContact = newSize book.size :=
    sizeMul_div _ hns.2
  have hd2 : sizeMul book.size / sizeofContact = book.size :=
    sizeMul_div _ (by omega)
  obtain ⟨a, blkN, hpa, hblkN, hi, hh1⟩ := writeSlot_ok_inv _ _ _ _ _ hwrite
  cases hpa
  obtain ⟨hflog, hfcases⟩ := free_ok_inv h2 book.contacts hg hf
  obtain ⟨hmlog, hmcases⟩ := memcpy_ok_inv _ _ _ _ _ hm
  rw [hd2] at hmcases
  simp only [malloc, hd1] at hmcases hmlog
  dsimp only at hi hh1 ⊢
  have hlen2 : h.cells.length < hg.cells.length := block_lt hg _ blkN hblkN
  have hK : h2.block (some h.cells.length) = some blkN ∧
      (book.contacts = none ∨
        ∃ a, book.contacts = some a ∧ a ≠ h.cells.length ∧ a < h2.cells.length) := by
    rcases hfcases with ⟨hc, hcells⟩ | ⟨a, sb, hc, hsb, hcells⟩
    · exact ⟨by rw [← block_cells hg h2 hcells]; exact hblkN, Or.inl hc⟩
    · obtain ⟨hne, hb2⟩ := block_set_none h2 hg a hcells _ _ hblkN
      exact ⟨hb2, Or.inr ⟨a, hc, hne, block_lt h2 a sb hsb⟩⟩
  have hslots1 : h1.slots (some h.cells.length) = blkN.set book.size (some c) := by
    rw [hh1]
    simp [Heap.slots, block_set_self _ _ _ _ hlen2]
  have hlog : h1.log = h.log ++
      [Event.malloc h.cells.length (newSize book.size), Event.free book.contacts] := by
    rw [hh1]
    simp [hflog, hmlog]
  rw [hslots1]
  refine ⟨hdbl, rfl, hlog, ?_⟩
  rcases hmcases with ⟨h0, hh2⟩ | ⟨db, sb, hdb, hsb, h0, hledb, hlesb, hcells2⟩
  · have hb := hK.1
    rw [hh2, block_append_last] at hb
    cases hb
    simp [h0]
  · rw [block_append_last] at hdb
    cases hdb
    have hb := hK.1
    rw [block_cells h2 (Heap.mk _ h2.log) hcells2,
      block_set_self _ _ _ _ (by simp)] at hb
    cases hb
    rcases hK.2 with hc | ⟨a, hc, hne, hlt⟩
    · rw [hc] at hsb
      cases hsb
    · rw [hcells2] at hlt
      simp only [List.length_set, List.length_append, List.length_singleton] at hlt
      have ha : a < h.cells.length := by omega
      rw [hc, block_append_left _ _ _ _ ha] at hsb
      have hsl : h.slots book.contacts = sb := by
        rw [hc]
        have : h.block (some a) = some sb := by
          rw [← hsb]
          exact block_cells _ _ rfl _
        simp [Heap.slots, this]
      rw [hsl]
      exact ⟨hlesb, by rw [List.drop_replicate]⟩

theorem newSize_eq (size : Nat) : newSize size = if size = 0 then 2 else 2 * size := by
  unfold newSize
  split <;> split <;> omega

/-! ## The claims -/

/-- C1 (order preservation), evaluated on the code: from the empty store the first
two calls of `add` succeed and leave the records in slots 0 and 1 of a two-slot
block, but `capacity` is still 0, so every third call skips the grow branch and
writes slot 2 of that two-slot block: the run leaves defined behaviour instead of
yielding a store of size 3. -/
theorem C1_third_add_writes_past_block (r0 r1 r2 : Contact) (rest : List Contact) :
    addAll emptyHeap emptyBook [r0, r1] =
        .ok ({ cells := [some [some r0, some r1]],
               log := [Event.malloc 0 2, Event.free none] },
             { size := 2, capacity := 0, contacts := some 0 }) ∧
      addAll emptyHeap emptyBook (r0 :: r1 :: r2 :: rest) = .error Fault.outOfBounds := by
  constructor <;> rfl

/-- C2 (length-capacity invariant), evaluated on the code: one call of `add` on
the empty store yields size 1 and capacity 0, so `size ≤ capacity` fails in a
store reachable from the empty one. -/
theorem C2_size_exceeds_capacity_after_first_add (r : Contact) :
    ∃ h1 book1, add emptyHeap emptyBook r = .ok (h1, book1) ∧
      book1.size = 1 ∧ book1.capacity = 0 ∧ ¬ book1.size ≤ book1.capacity :=
  ⟨_, _, rfl, rfl, rfl, by decide⟩

/-- C3 (growth doubling), evaluated on the code: after one and after two calls of
`add` from the empty store the capacity field is 0, where doubling from 2 would
give 2. -/
theorem C3_capacity_stays_zero (r0 r1 : Contact) :
    (addAll emptyHeap emptyBook [r0]).map (fun s => s.2.capacity) = .ok 0 ∧
      (addAll emptyHeap emptyBook [r0, r1]).map (fun s => s.2.capacity) = .ok 0 := by
  constructor <;> rfl

/-- C4 (capacity tracks the allocation), evaluated on the code: after one call of
`add` on the empty store the capacity field is 0 while the block held in
`contacts` has 2 slots. -/
theorem C4_capacity_differs_from_block_slots (r : Contact) :
    (add emptyHeap emptyBook r).map
        (fun s => (s.2.capacity, (s.1.slots s.2.contacts).length)) = .ok (0, 2) := by
  rfl

/-- C5 (no loss on append): for every well-formed store and every record, when
`add` returns, every index below the old size is still inside the block held in
`contacts` and holds what it held before the call, in the grow branch and in the
other; and `add` does return, except that a full store of more than `INT_MAX / 2`
records stops at the signed overflow of `size * 2`. -/
theorem C5_no_loss_on_append (h : Heap) (book : AddressBook) (c : Contact)
    (hwf : WellFormed h book) :
    match add h book c with
    | .ok (h1, book1) =>
      ∀ i, i < book.size →
        i < (h1.slots book1.contacts).length ∧
          (h1.slots book1.contacts)[i]? = (h.slots book.contacts)[i]?
    | .error e =>
      e = Fault.signedOverflow ∧ book.size = book.capacity ∧ INT_MAX < book.size * 2 := by
  have hle := hwf.1
  have hlen := hwf.2.2.2
  by_cases hfit : book.size < book.capacity ∨ book.size * 2 ≤ INT_MAX
  · obtain ⟨h1, book1, hadd, _, _, _, hspare, hgrow⟩ := add_spec h book c hwf hfit
    rw [hadd]
    intro i hi
    by_cases hfull : book.size = book.capacity
    · obtain ⟨_, _, hs⟩ := hgrow hfull
      rw [hs]
      have hne : book.size ≠ i := by omega
      have hil : i < (h.slots book.contacts).length := by omega
      simp only [List.length_set, List.length_append, List.getElem?_set_ne hne,
        List.getElem?_append_left hil]
      exact ⟨by omega, trivial⟩
    · obtain ⟨_, _, _, hs⟩ := hspare (by omega)
      rw [hs]
      have hne : book.size ≠ i := by omega
      simp only [List.length_set, List.getElem?_set_ne hne]
      exact ⟨by omega, trivial⟩
  · have hfull : book.size = book.capacity := by omega
    have hdbl : INT_MAX < book.size * 2 := by omega
    rw [add_overflow h book c hfull hdbl]
    exact ⟨rfl, hfull, hdbl⟩

/-- C5 at a full store of two records: the call grows the block and indices 0 and 1
keep their records. -/
theorem C5_no_loss_on_append_witness :
    WellFormed fullHeap fullBook ∧
      match add fullHeap fullBook carol with
      | .ok (h1, book1) =>
        ∀ i, i < fullBook.size →
          i < (h1.slots book1.contacts).length ∧
            (h1.slots book1.contacts)[i]? = (fullHeap.slots fullBook.contacts)[i]?
      | .error e =>
        e = Fault.signedOverflow ∧ fullBook.size = fullBook.capacity ∧
          INT_MAX < fullBook.size * 2 :=
  ⟨by decide, C5_no_loss_on_append fullHeap fullBook carol (by decide)⟩

/-- C6 as stated fails: the full store of 2^30 records is well formed, and `add`
on it does not succeed, since `size * 2` does not fit `int`. -/
theorem C6_counterexample_full_store_of_two_pow_30 :
    WellFormed hugeHeap hugeBook ∧
      add hugeHeap hugeBook carol = .error Fault.signedOverflow ∧
      ¬ ∃ r, add hugeHeap hugeBook carol = .ok r := by
  have hadd : add hugeHeap hugeBook carol = .error Fault.signedOverflow :=
    add_overflow hugeHeap hugeBook carol rfl (by decide)
  refine ⟨⟨Nat.le_refl _, by decide, rfl, ?_⟩, hadd, ?_⟩
  · show (List.replicate 1073741824 (some alice)).length = 1073741824
    exact List.length_replicate ..
  · rintro ⟨r, hr⟩
    rw [hadd] at hr
    cases hr

/-- C6 (append postcondition), amended: for every well-formed store that has spare
capacity or whose doubled size fits `int`, and every record `r`, `add` succeeds,
the resulting size is the old size plus one, and slot old-size of the block held
in `contacts` holds `r`. -/
theorem C6_append_postcondition (h : Heap) (book : AddressBook) (c : Contact)
    (hwf : WellFormed h book)
    (hfit : book.size < book.capacity ∨ book.size * 2 ≤ INT_MAX) :
    ∃ h1 book1, add h book c = .ok (h1, book1) ∧ book1.size = book.size + 1 ∧
      (h1.slots book1.contacts)[book.size]? = some (some c) := by
  have hle := hwf.1
  have hlen := hwf.2.2.2
  obtain ⟨h1, book1, hadd, hsize, _, _, hspare, hgrow⟩ := add_spec h book c hwf hfit
  refine ⟨h1, book1, hadd, hsize, ?_⟩
  by_cases hfull : book.size = book.capacity
  · obtain ⟨_, _, hs⟩ := hgrow hfull
    have hns := newSize_bounds book.size (by omega)
    rw [hs]
    apply getElem?_set_here
    simp only [List.length_append, List.length_replicate]
    omega
  · obtain ⟨_, _, _, hs⟩ := hspare (by omega)
    rw [hs]
    apply getElem?_set_here
    omega

/-- C6 at a full store of two records: `add` succeeds, the size becomes 3 and slot
2 holds the record. -/
theorem C6_append_postcondition_witness :
    WellFormed fullHeap fullBook ∧
      (fullBook.size < fullBook.capacity ∨ fullBook.size * 2 ≤ INT_MAX) ∧
      ∃ h1 book1, add fullHeap fullBook carol = .ok (h1, book1) ∧
        book1.size = fullBook.size + 1 ∧
        (h1.slots book1.contacts)[fullBook.size]? = some (some carol) :=
  ⟨by decide, Or.inr (by decide),
    C6_append_postcondition fullHeap fullBook carol (by decide) (Or.inr (by decide))⟩

/-- C7 (capacity update on growth), evaluated on the code: `add` grows the block
of a full store but leaves the capacity field as it was.  On the empty store the
new block has 2 slots and the capacity stays 0; on a full store of two records the
new block has 4 slots and the capacity stays 2. -/
theorem C7_capacity_unchanged_by_growth (r : Contact) :
    (add emptyHeap emptyBook r).map
        (fun s => (s.2.capacity, (s.1.slots s.2.contacts).length)) = .ok (0, 2) ∧
      WellFormed fullHeap fullBook ∧ fullBook.size = fullBook.capacity ∧
      (add fullHeap fullBook r).map
        (fun s => (s.2.capacity, (s.1.slots s.2.contacts).length)) = .ok (2, 4) :=
  ⟨rfl, by decide, rfl, rfl⟩

/-- C8 (append into spare capacity does not grow): for every well-formed store
with `size < capacity` and every record, `add` succeeds without a call to the
allocator; the capacity field, the pointer in `contacts` and the number of slots
of its block are unchanged; slot old-size of the block holds the record, every
other slot of it holds what it held before, and so does every other block. -/
theorem C8_append_into_spare_capacity (h : Heap) (book : AddressBook) (c : Contact)
    (hwf : WellFormed h book) (hlt : book.size < book.capacity) :
    ∃ h1 book1, add h book c = .ok (h1, book1) ∧
      book1.capacity = book.capacity ∧ book1.contacts = book.contacts ∧
      h1.log = h.log ∧ h1.cells.length = h.cells.length ∧
      (h1.slots book1.contacts).length = (h.slots book.contacts).length ∧
      (h1.slots book1.contacts)[book.size]? = some (some c) ∧
      (∀ i, i ≠ book.size →
        (h1.slots book1.contacts)[i]? = (h.slots book.contacts)[i]?) ∧
      (∀ p, p ≠ book.contacts → h1.block p = h.block p) := by
  have hcap := hwf.2.1
  rcases wf_cases h book hwf with ⟨_, hcap0, _⟩ | ⟨a, blk, hc, hb, hlen, hslots⟩
  · omega
  · have hadd := add_spare h book c a blk hc hb (by omega) (by omega) (by omega)
    have ha := block_lt h a blk hb
    have hblock := block_set_self h.cells h.log a (blk.set book.size (some c)) ha
    refine ⟨_, _, hadd, rfl, rfl, rfl, by simp, ?_, ?_, ?_, ?_⟩
    · simp [hc, Heap.slots, hblock, hb]
    · simp only [hc, Heap.slots, hblock, hb, Option.getD_some]
      exact getElem?_set_here blk book.size (some c) (by omega)
    · intro i hi
      simp only [hc, Heap.slots, hblock, hb, Option.getD_some]
      exact List.getElem?_set_ne (Ne.symm hi)
    · intro p hp
      cases p with
      | none => rfl
      | some b =>
        have hne : a ≠ b := by
          intro hab
          exact hp (by rw [hc, hab])
        simp [Heap.block, List.getElem?_set_ne hne]

/-- C8 at a two-slot store holding one record: the second record goes into slot 1
of the same block. -/
theorem C8_append_into_spare_capacity_witness :
    WellFormed spareHeap spareBook ∧ spareBook.size < spareBook.capacity ∧
      ∃ h1 book1, add spareHeap spareBook bob = .ok (h1, book1) ∧
        book1.capacity = spareBook.capacity ∧ book1.contacts = spareBook.contacts ∧
        h1.log = spareHeap.log ∧ h1.cells.length = spareHeap.cells.length ∧
        (h1.slots book1.contacts).length = (spareHeap.slots spareBook.contacts).length ∧
        (h1.slots book1.contacts)[spareBook.size]? = some (some bob) ∧
        (∀ i, i ≠ spareBook.size →
          (h1.slots book1.contacts)[i]? = (spareHeap.slots spareBook.contacts)[i]?) ∧
        (∀ p, p ≠ spareBook.contacts → h1.block p = spareHeap.block p) :=
  ⟨by decide, by decide,
    C8_append_into_spare_capacity spareHeap spareBook bob (by decide) (by decide)⟩

/-- C9 (demonstration scenario), evaluated on the code: in `create_book` the pair
(size, capacity) is (1, 0) after adding Alice and (2, 0) after adding Bob, with
Alice and Bob in slots 0 and 1 of a two-slot block; the call that adds Carol
writes slot 2 of that block, so `create_book` leaves defined behaviour and returns
no store. -/
theorem C9_create_book_scenario :
    create_book_alice emptyHeap =
        .ok ({ cells := [some [some alice, none]],
               log := [Event.malloc 0 2, Event.free none] },
             { size := 1, capacity := 0, contacts := some 0 }) ∧
      create_book_bob emptyHeap =
        .ok ({ cells := [some [some alice, some bob]],
               log := [Event.malloc 0 2, Event.free none] },
             { size := 2, capacity := 0, contacts := some 0 }) ∧
      create_book emptyHeap = .error Fault.outOfBounds :=
  ⟨rfl, rfl, rfl⟩

/-- C10 (exactly-once release), evaluated on the code: a run of at most two calls
of `add` followed by the release allocates at most one block and releases it
once, every other release being of `NULL`; a run of three or more calls, and with
it the run of `main`, stops at the out-of-bounds write of the third call and never
reaches the release of `contacts`. -/
theorem C10_release_not_reached (r0 r1 r2 : Contact) (rest : List Contact) :
    addAllThenFree [] = .ok { cells := [], log := [Event.free none] } ∧
      addAllThenFree [r0] =
        .ok { cells := [none],
              log := [Event.malloc 0 2, Event.free none, Event.free (some 0)] } ∧
      addAllThenFree [r0, r1] =
        .ok { cells := [none],
              log := [Event.malloc 0 2, Event.free none, Event.free (some 0)] } ∧
      addAllThenFree (r0 :: r1 :: r2 :: rest) = .error Fault.outOfBounds ∧
      main = .error Fault.outOfBounds :=
  ⟨rfl, rfl, rfl, rfl, rfl⟩

/-- C11 as stated fails: a record whose name has 20 visible characters is stored
by `add` as it is, neither rejected nor truncated. -/
theorem C11_counterexample_long_name_is_stored :
    19 < longNameRecord.name.length ∧
      add emptyHeap emptyBook longNameRecord =
        .ok ({ cells := [some [some longNameRecord, none]],
               log := [Event.malloc 0 2, Event.free none] },
             { size := 1, capacity := 0, contacts := some 0 }) ∧
      ((add emptyHeap emptyBook longNameRecord).map
        (fun s => (s.1.slots s.2.contacts)[0]?.map (Option.map (fun c => c.name.length))))
        = .ok (some (some 20)) :=
  ⟨by decide, rfl, rfl⟩

/-- C11 (oversized field), amended: `add` makes no check on the length of a
field.  For every well-formed store that has spare capacity or whose doubled size
fits `int`, and every record whose name or address is longer than 19 characters,
`add` succeeds, the size goes up by one and slot old-size holds the record as it
was passed, with both texts at their full length. -/
theorem C11_long_field_is_stored_unchecked (h : Heap) (book : AddressBook) (c : Contact)
    (hwf : WellFormed h book)
    (hfit : book.size < book.capacity ∨ book.size * 2 ≤ INT_MAX)
    (hlong : 19 < c.name.length ∨ 19 < c.address.length) :
    ∃ h1 book1 stored, add h book c = .ok (h1, book1) ∧ book1.size = book.size + 1 ∧
      (h1.slots book1.contacts)[book.size]? = some (some stored) ∧
      stored = c ∧ (19 < stored.name.length ∨ 19 < stored.address.length) := by
  have hle := hwf.1
  have hlen := hwf.2.2.2
  obtain ⟨h1, book1, hadd, hsize, _, _, hspare, hgrow⟩ := add_spec h book c hwf hfit
  refine ⟨h1, book1, c, hadd, hsize, ?_, rfl, hlong⟩
  by_cases hfull : book.size = book.capacity
  · obtain ⟨_, _, hs⟩ := hgrow hfull
    have hns := newSize_bounds book.size (by omega)
    rw [hs]
    apply getElem?_set_here
    simp only [List.length_append, List.length_replicate]
    omega
  · obtain ⟨_, _, _, hs⟩ := hspare (by omega)
    rw [hs]
    apply getElem?_set_here
    omega

/-- C11 at a two-slot store holding one record: the record with the 20-character
name goes into slot 1 unchanged. -/
theorem C11_long_field_is_stored_unchecked_witness :
    WellFormed spareHeap spareBook ∧
      (spareBook.size < spareBook.capacity ∨ spareBook.size * 2 ≤ INT_MAX) ∧
      (19 < longNameRecord.name.length ∨ 19 < longNameRecord.address.length) ∧
      ∃ h1 book1 stored, add spareHeap spareBook longNameRecord = .ok (h1, book1) ∧
        book1.size = spareBook.size + 1 ∧
        (h1.slots book1.contacts)[spareBook.size]? = some (some stored) ∧
        stored = longNameRecord ∧
        (19 < stored.name.length ∨ 19 < stored.address.length) :=
  ⟨by decide, Or.inl (by decide), Or.inl (by decide),
    C11_long_field_is_stored_unchecked spareHeap spareBook longNameRecord (by decide)
      (Or.inl (by decide)) (Or.inl (by decide))⟩

/-- C12 (in-bounds write), evaluated on the code: after two calls of `add` from
the empty store the size is 2 and the block held in `contacts` has 2 slots, so the
write `contacts[size]` of the third call targets index 2 of a two-slot block and
the bounds-checked write takes its out-of-bounds branch. -/
theorem C12_third_write_targets_slot_past_block (r0 r1 r2 : Contact) :
    ∃ h2 book2, addAll emptyHeap emptyBook [r0, r1] = .ok (h2, book2) ∧
      book2.size = 2 ∧ (h2.slots book2.contacts).length = 2 ∧
      book2.size ≠ book2.capacity ∧
      writeSlot h2 book2.contacts book2.size r2 = .error Fault.outOfBounds ∧
      add h2 book2 r2 = .error Fault.outOfBounds :=
  ⟨_, _, rfl, rfl, rfl, by decide, rfl, rfl⟩

/-- C15 (the demonstration records fit the record bound): each of the six texts
that `create_book` copies into a name or address field has at most 19 characters,
so with its terminator it fits the 20-byte array, and the `strcpy` calls that
fill `alice`, `bob` and `carol` stay inside their arrays. -/
theorem C15_demonstration_records_fit :
    ("Alice".length ≤ 19 ∧ "123 Apple Ave".length ≤ 19 ∧ "Bob".length ≤ 19 ∧
      "123 Berry Boardwalk".length ≤ 19 ∧ "Carol".length ≤ 19 ∧
      "123 Cherry Crossing".length ≤ 19) ∧
    (∀ s ∈ ["Alice", "123 Apple Ave", "Bob", "123 Berry Boardwalk", "Carol",
        "123 Cherry Crossing"], s.length + 1 ≤ FIELD_SIZE) ∧
    mkContact "Alice" "123 Apple Ave" = .ok alice ∧
    mkContact "Bob" "123 Berry Boardwalk" = .ok bob ∧
    mkContact "Carol" "123 Cherry Crossing" = .ok carol :=
  ⟨by decide, by decide, rfl, rfl, rfl⟩

/-- C13 (size of the grown block): whenever `add` is entered with
`size = capacity` and returns, `contacts` holds the block that this call obtained
from `malloc`, that block has exactly `2 * size` slots when `size > 0` and exactly
2 slots when `size = 0`, and each of its first old-size slots holds what the same
slot of the old block held; and the call does return on every well-formed store
whose doubled size fits `int`. -/
theorem C13_size_of_grown_block (h : Heap) (book : AddressBook) (c : Contact)
    (hfull : book.size = book.capacity) :
    match add h book c with
    | .ok (h1, book1) =>
      book1.contacts = some h.cells.length ∧
        h1.log = h.log ++
          [Event.malloc h.cells.length (if book.size = 0 then 2 else 2 * book.size),
           Event.free book.contacts] ∧
        (h1.slots book1.contacts).length = (if book.size = 0 then 2 else 2 * book.size) ∧
        ∀ i, i < book.size →
          i < (h.slots book.contacts).length ∧
            (h1.slots book1.contacts)[i]? = (h.slots book.contacts)[i]?
    | .error _ => ¬ WellFormed h book ∨ INT_MAX < book.size * 2 := by
  split
  · next h1 book1 hadd =>
    obtain ⟨hdbl, hc, hlog, hle, hs⟩ := add_grow_ok h book c h1 book1 hfull hadd
    have hns := newSize_bounds book.size hdbl
    rw [newSize_eq] at hlog
    refine ⟨hc, hlog, ?_, ?_⟩
    · rw [hs, ← newSize_eq]
      simp only [List.length_set, List.length_append, List.length_take,
        List.length_replicate]
      omega
    · intro i hi
      have hne : book.size ≠ i := by omega
      have hil : i < ((h.slots book.contacts).take book.size).length := by
        simp only [List.length_take]
        omega
      refine ⟨by omega, ?_⟩
      rw [hs, List.getElem?_set_ne hne, List.getElem?_append_left hil,
        List.getElem?_take_of_lt hi]
  · next e hadd =>
    by_contra hcon
    have hwf : WellFormed h book := by
      by_contra hn
      exact hcon (Or.inl hn)
    have hdbl : book.size * 2 ≤ INT_MAX := by
      by_contra hn
      exact hcon (Or.inr (by omega))
    obtain ⟨h1, book1, hok, _⟩ := add_spec h book c hwf (Or.inr hdbl)
    rw [hok] at hadd
    cases hadd

/-- C13 at a full store of two records: the new block has 4 slots and its slots 0
and 1 hold the two records. -/
theorem C13_size_of_grown_block_witness :
    fullBook.size = fullBook.capacity ∧
      match add fullHeap fullBook carol with
      | .ok (h1, book1) =>
        book1.contacts = some fullHeap.cells.length ∧
          h1.log = fullHeap.log ++
            [Event.malloc fullHeap.cells.length
               (if fullBook.size = 0 then 2 else 2 * fullBook.size),
             Event.free fullBook.contacts] ∧
          (h1.slots book1.contacts).length =
            (if fullBook.size = 0 then 2 else 2 * fullBook.size) ∧
          ∀ i, i < fullBook.size →
            i < (fullHeap.slots fullBook.contacts).length ∧
              (h1.slots book1.contacts)[i]? = (fullHeap.slots fullBook.contacts)[i]?
      | .error _ => ¬ WellFormed fullHeap fullBook ∨ INT_MAX < fullBook.size * 2 :=
  ⟨rfl, C13_size_of_grown_block fullHeap fullBook carol rfl⟩

/-- C14 (`add` never writes the capacity field): for every store and every record,
whenever `add` returns, the capacity field of the result is the capacity field
before the call, whether or not the grow branch was taken; and `add` does return
on every well-formed store that has spare capacity or whose doubled size fits
`int`. -/
theorem C14_add_never_writes_capacity (h : Heap) (book : AddressBook) (c : Contact) :
    (∀ h1 book1, add h book c = .ok (h1, book1) → book1.capacity = book.capacity) ∧
      (WellFormed h book → (book.size < book.capacity ∨ book.size * 2 ≤ INT_MAX) →
        ∃ h1 book1, add h book c = .ok (h1, book1) ∧ book1.capacity = book.capacity) := by
  have hall : ∀ h1 book1, add h book c = .ok (h1, book1) → book1.capacity = book.capacity := by
    intro h1 book1 hadd
    obtain ⟨hg, bg, hgrow, _, hb1, _⟩ := add_ok_inv h book c h1 book1 hadd
    subst hb1
    by_cases hfull : book.size = book.capacity
    · rw [if_pos hfull] at hgrow
      obtain ⟨_, hbg, _⟩ := grow_ok_inv h book hg bg hgrow
      subst hbg
      rfl
    · rw [if_neg hfull] at hgrow
      cases hgrow
      rfl
  refine ⟨hall, ?_⟩
  intro hwf hfit
  obtain ⟨h1, book1, hok, _⟩ := add_spec h book c hwf hfit
  exact ⟨h1, book1, hok, hall h1 book1 hok⟩

/-- C14 at a full store of two records and at a store with spare capacity: the
capacity stays 2 in the grow branch and in the other. -/
theorem C14_add_never_writes_capacity_witness :
    (∃ h1 book1, add fullHeap fullBook carol = .ok (h1, book1) ∧
        book1.capacity = fullBook.capacity) ∧
      (∃ h1 book1, add spareHeap spareBook bob = .ok (h1, book1) ∧
        book1.capacity = spareBook.capacity) :=
  ⟨(C14_add_never_writes_capacity fullHeap fullBook carol).2 (by decide)
      (Or.inr (by decide)),
    (C14_add_never_writes_capacity spareHeap spareBook bob).2 (by decide)
      (Or.inl (by decide))⟩

end Pointers
